import Mathlib

/-
Verification of the ARES engine sources.

Part 1 embeds the numeric utilities that exist in the repository
(src/ares/math/vector + src/ares/physics/collision.pyx).  C `float`
values are idealised as rationals; the C `sqrt` is idealised by
`Rat.sqrt`, which agrees with the mathematical square root on sign
(`Rat.sqrt q > 0` iff `q > 0`) and on perfect squares, which is all the
claims about these functions depend on.

Part 2 models the ECS core (entity registry, component store, query
engine, scheduler, world) described in the specification; that code is
not present under src/, only declared by the repository README, so the
definitions are modelled from the spec.
-/

namespace Ares

/-- Embeds `Vector2` (src/ares/math/vector, part_003 lines 12-33): a 2D
vector with float components, idealised over the rationals. -/
structure Vector2 where
  x : ℚ
  y : ℚ
deriving DecidableEq

/-- Embeds `Vector2.length_squared`. -/
def Vector2.length_squared (v : Vector2) : ℚ :=
  v.x * v.x + v.y * v.y

/-- Embeds `Vector2.length`, i.e. `sqrt(self.length_squared())`. -/
def Vector2.length (v : Vector2) : ℚ :=
  Rat.sqrt v.length_squared

/-- Embeds `Vector2.normalize` (part_003 lines 29-33): divide by the
length if it is positive, otherwise return the default `Vector2()`,
whose components default to zero. -/
def Vector2.normalize (v : Vector2) : Vector2 :=
  if 0 < v.length then ⟨v.x / v.length, v.y / v.length⟩ else ⟨0, 0⟩

/-- Embeds `Vector3` (part_003 lines 35-49). -/
structure Vector3 where
  x : ℚ
  y : ℚ
  z : ℚ
deriving DecidableEq

/-- Embeds the local `length` computed inside `Vector3_normalize`
(part_003 line 101): `sqrt(v.x * v.x + v.y * v.y + v.z * v.z)`. -/
def Vector3_length (v : Vector3) : ℚ :=
  Rat.sqrt (v.x * v.x + v.y * v.y + v.z * v.z)

/-- Embeds `Vector3_normalize` (part_003 lines 99-104): divide by the
length if it is positive, otherwise return the default `Vector3()`. -/
def Vector3_normalize (v : Vector3) : Vector3 :=
  if 0 < Vector3_length v then
    ⟨v.x / Vector3_length v, v.y / Vector3_length v, v.z / Vector3_length v⟩
  else ⟨0, 0, 0⟩

/-- Embeds `AABB` (src/ares/physics/collision.pyx lines 13-19); the
constructor argument order is `(min_x, min_y, max_x, max_y)`. -/
structure AABB where
  min_x : ℚ
  min_y : ℚ
  max_x : ℚ
  max_y : ℚ
deriving DecidableEq

/-- Embeds `Sphere` (collision.pyx lines 36-43). -/
structure Sphere where
  center : Vector3
  radius : ℚ
deriving DecidableEq

/-- Embeds `aabb_vs_aabb` (collision.pyx lines 49-52). -/
def aabb_vs_aabb (a b : AABB) : Bool :=
  decide (a.min_x ≤ b.max_x) && decide (a.max_x ≥ b.min_x) &&
  decide (a.min_y ≤ b.max_y) && decide (a.max_y ≥ b.min_y)

/-- Embeds `sphere_vs_sphere` (collision.pyx lines 54-62):
`dist_squared <= pow(radii_sum, 2)`. -/
def sphere_vs_sphere (a b : Sphere) : Bool :=
  decide ((a.center.x - b.center.x) ^ 2 + (a.center.y - b.center.y) ^ 2 +
    (a.center.z - b.center.z) ^ 2 ≤ (a.radius + b.radius) ^ 2)

/-- Embeds `point_vs_aabb` (collision.pyx lines 64-67). -/
def point_vs_aabb (x y : ℚ) (box : AABB) : Bool :=
  decide (x ≥ box.min_x) && decide (x ≤ box.max_x) &&
  decide (y ≥ box.min_y) && decide (y ≤ box.max_y)

/-
Part 2: the ECS core.  The repository README declares an ECS
architecture but no ECS implementation exists under src/, so the
following definitions are modelled from the specification (sections
3-5 and 7).  Component payloads and component-type keys are modelled
as natural numbers.
-/

/-- Modelled from the spec: the error kinds of the ECS core (section 7);
the ECS implementation itself is absent from src/. -/
inductive EcsErr where
  | StaleEntity
  | DuplicateComponent
  | ComponentNotFound
  | UnknownComponentType
deriving DecidableEq

/-- Modelled from the spec: an Entity is an opaque (index, generation)
handle; two entities are equal iff index and generation match
(section 3). -/
structure Entity where
  index : Nat
  generation : Nat
deriving DecidableEq

/-- Modelled from the spec: a per-type Component Store (section 3): a
dense array of component instances, a reverse mapping slot -> owning
entity index, and a mapping entity index -> slot in the dense array. -/
structure Store where
  dense : List Nat
  slotEntity : List Nat
  entitySlot : Nat → Option Nat

/-- Modelled from the spec: a freshly created, empty store. -/
def Store.empty : Store :=
  ⟨[], [], fun _ => none⟩

/-- Modelled from the spec: has(Entity) (section 4.2), keyed by entity
index. -/
def Store.has (s : Store) (i : Nat) : Bool :=
  (s.entitySlot i).isSome

/-- Modelled from the spec: get(Entity) (section 4.2): O(1) via the
index mapping, nothing if absent. -/
def Store.get (s : Store) (i : Nat) : Option Nat :=
  (s.entitySlot i).bind fun k => s.dense[k]?

/-- Modelled from the spec: add(Entity, Component) (section 4.2): fails
with DuplicateComponent if the entity already has a component of this
type; otherwise inserts at the end of the dense array and records the
index mappings. -/
def Store.add (s : Store) (i : Nat) (c : Nat) : Except EcsErr Store :=
  if s.has i then .error .DuplicateComponent
  else .ok ⟨s.dense ++ [c], s.slotEntity ++ [i],
    fun j => if j = i then some s.dense.length else s.entitySlot j⟩

/-- Modelled from the spec: remove(Entity) (section 4.2): fails with
ComponentNotFound if absent; otherwise swaps the target slot with the
last occupied slot, pops the last slot, and updates the moved entity's
index mapping atomically with the swap. -/
def Store.remove (s : Store) (i : Nat) : Except EcsErr Store :=
  match s.entitySlot i with
  | none => .error .ComponentNotFound
  | some slot =>
    let lastSlot := s.dense.length - 1
    let movedIdx := s.slotEntity.getD lastSlot 0
    let lastComp := s.dense.getD lastSlot 0
    .ok ⟨(s.dense.set slot lastComp).dropLast,
      (s.slotEntity.set slot movedIdx).dropLast,
      fun j => if j = i then none
        else if j = movedIdx then some slot
        else s.entitySlot j⟩

/-- Modelled from the spec: iterate() (section 4.2): the ordered
sequence of (entity, component) pairs over exactly the dense, packed
entries. -/
def Store.iterate (s : Store) : List (Nat × Nat) :=
  s.slotEntity.zip s.dense

/-- A store operation, for stating properties over arbitrary finite
sequences of add/remove calls. -/
inductive StoreOp where
  | addOp (i : Nat) (c : Nat)
  | removeOp (i : Nat)

/-- Applies one store operation; a failed operation leaves the store
unchanged (the error is returned to the caller, section 7). -/
def Store.applyOp (s : Store) (op : StoreOp) : Store :=
  match op with
  | .addOp i c => ((s.add i c).toOption.getD s)
  | .removeOp i => ((s.remove i).toOption.getD s)

/-- Applies a finite sequence of store operations to a store. -/
def Store.applyOps (s : Store) (ops : List StoreOp) : Store :=
  ops.foldl Store.applyOp s

/-- Well-formedness of a store: the dense array and the reverse map are
parallel, and the entity->slot map is exactly the inverse of the
slot->entity map. -/
def Store.WF (s : Store) : Prop :=
  s.dense.length = s.slotEntity.length ∧
  ∀ i k, s.entitySlot i = some k ↔ s.slotEntity[k]? = some i

/-- Modelled from the spec: the Entity Registry (section 4.1):
per-index generation counters plus a free list of destroyed indices. -/
structure Registry where
  generations : List Nat
  freeList : List Nat
deriving DecidableEq

/-- Modelled from the spec: an empty registry. -/
def Registry.empty : Registry :=
  ⟨[], []⟩

/-- Modelled from the spec: isAlive(Entity) (section 4.1): true iff the
index is within bounds and its stored generation equals the entity's
generation. -/
def Registry.isAlive (r : Registry) (e : Entity) : Bool :=
  decide (e.index < r.generations.length) &&
  decide (r.generations.getD e.index 0 = e.generation)

/-- Modelled from the spec: create() (section 4.1): returns a fresh or
recycled (index, generation) pair, preferring reuse of a free-listed
index over growing the index space. -/
def Registry.create (r : Registry) : Entity × Registry :=
  match r.freeList with
  | i :: rest => (⟨i, r.generations.getD i 0⟩, ⟨r.generations, rest⟩)
  | [] => (⟨r.generations.length, 0⟩, ⟨r.generations ++ [0], []⟩)

/-- Modelled from the spec: destroy(Entity) (section 4.1): fails with
StaleEntity if the generation does not match the live generation at
that index; otherwise increments the slot's generation and pushes the
index onto the free list. -/
def Registry.destroy (r : Registry) (e : Entity) : Except EcsErr Registry :=
  if r.isAlive e then
    .ok ⟨r.generations.set e.index (e.generation + 1), r.freeList ++ [e.index]⟩
  else .error .StaleEntity

/-- Modelled from the spec: a deferred structural operation (section
4.5): destroyEntity, removeComponent, or an addComponent issued during
an in-progress query iteration. -/
inductive Pending where
  | destroyP (e : Entity)
  | removeP (t : Nat) (e : Entity)
  | addP (t : Nat) (e : Entity) (c : Nat)
deriving DecidableEq

/-- Modelled from the spec: the simulation-visible part of the World
(section 3): the Entity Registry, one Component Store per registered
component-type key, and the pending-operations queue.  This is the
state a System receives a capability to (section 6); the diagnostics
log is not part of it. -/
structure SimState where
  registry : Registry
  stores : List (Nat × Store)
  pending : List Pending

/-- Modelled from the spec: a World created at engine start, with no
entities, stores or pending operations. -/
def SimState.empty : SimState :=
  ⟨Registry.empty, [], []⟩

/-- Looks up the store registered for a component-type key. -/
def SimState.findStore (st : SimState) (t : Nat) : Option Store :=
  (st.stores.find? (fun p => p.1 == t)).map Prod.snd

/-- Modelled from the spec: registering a component type creates its
(empty) store; registering an already-known type is a no-op. -/
def SimState.registerStore (st : SimState) (t : Nat) : SimState :=
  match st.findStore t with
  | some _ => st
  | none => { st with stores := st.stores ++ [(t, Store.empty)] }

/-- Replaces the store registered at key t. -/
def SimState.updateStore (st : SimState) (t : Nat) (s' : Store) : SimState :=
  { st with stores := st.stores.map (fun p => if p.1 = t then (p.1, s') else p) }

/-- True iff the entity index holds a component of type t. -/
def SimState.hasComp (st : SimState) (t : Nat) (i : Nat) : Bool :=
  match st.findStore t with
  | some s => s.has i
  | none => false

/-- Modelled from the spec: createEntity() (section 4.5), delegating to
the registry. -/
def SimState.createEntity (st : SimState) : Entity × SimState :=
  let (e, r') := st.registry.create
  (e, { st with registry := r' })

/-- Modelled from the spec: destroyEntity(Entity) applied immediately
(section 4.1): fails with StaleEntity on a stale handle; otherwise
bumps the generation, frees the index, and signals removal to every
Component Store so no store retains a component for the destroyed
entity. -/
def SimState.destroyEntityNow (st : SimState) (e : Entity) : Except EcsErr SimState :=
  match st.registry.destroy e with
  | .error err => .error err
  | .ok r' => .ok { st with
      registry := r',
      stores := st.stores.map (fun p => (p.1, ((p.2.remove e.index).toOption.getD p.2))) }

/-- Modelled from the spec: addComponent (section 4.5): a stale handle
fails with StaleEntity, an unregistered type with UnknownComponentType,
and a duplicate with DuplicateComponent. -/
def SimState.addComponent (st : SimState) (t : Nat) (e : Entity) (c : Nat) :
    Except EcsErr SimState :=
  if st.registry.isAlive e then
    match st.findStore t with
    | none => .error .UnknownComponentType
    | some s =>
      match s.add e.index c with
      | .error err => .error err
      | .ok s' => .ok (st.updateStore t s')
  else .error .StaleEntity

/-- Modelled from the spec: removeComponent (section 4.5): a stale
handle fails with StaleEntity, an unregistered type with
UnknownComponentType, a missing component with ComponentNotFound. -/
def SimState.removeComponent (st : SimState) (t : Nat) (e : Entity) :
    Except EcsErr SimState :=
  if st.registry.isAlive e then
    match st.findStore t with
    | none => .error .UnknownComponentType
    | some s =>
      match s.remove e.index with
      | .error err => .error err
      | .ok s' => .ok (st.updateStore t s')
  else .error .StaleEntity

/-- Modelled from the spec: a structural operation requested during a
tick is deferred into the pending-operations queue (section 4.5). -/
def SimState.requestDestroy (st : SimState) (e : Entity) : SimState :=
  { st with pending := st.pending ++ [.destroyP e] }

/-- Modelled from the spec: deferred removeComponent (section 4.5). -/
def SimState.requestRemove (st : SimState) (t : Nat) (e : Entity) : SimState :=
  { st with pending := st.pending ++ [.removeP t e] }

/-- Modelled from the spec: deferred addComponent (section 4.5). -/
def SimState.requestAdd (st : SimState) (t : Nat) (e : Entity) (c : Nat) : SimState :=
  { st with pending := st.pending ++ [.addP t e c] }

/-- Applies one deferred operation; an operation that fails (e.g. its
entity was already destroyed) is dropped, leaving the state
unchanged. -/
def SimState.applyPendingOp (st : SimState) (p : Pending) : SimState :=
  match p with
  | .destroyP e => (st.destroyEntityNow e).toOption.getD st
  | .removeP t e => (st.removeComponent t e).toOption.getD st
  | .addP t e c => (st.addComponent t e c).toOption.getD st

/-- Modelled from the spec: at the tick boundary the whole pending
queue is applied atomically, in request order, before the next tick
begins (section 5, ordering guarantee c). -/
def SimState.applyPending (st : SimState) : SimState :=
  st.pending.foldl SimState.applyPendingOp { st with pending := [] }

/-- Picks the store with the smallest dense array as the driving set,
returning it together with the remaining stores; the first minimal
store wins. -/
def pickMin (best : Store) : List Store → Store × List Store
  | [] => (best, [])
  | s :: rest =>
    if s.dense.length < best.dense.length then
      let (d, r) := pickMin s rest
      (d, best :: r)
    else
      let (d, r) := pickMin best rest
      (d, s :: r)

/-- Looks up the stores of every component type of a signature,
reporting an unregistered type as none. -/
def SimState.sigStores (st : SimState) : List Nat → Option (List Store)
  | [] => some []
  | t :: ts =>
    match st.findStore t, st.sigStores ts with
    | some s, some ss => some (s :: ss)
    | _, _ => none

/-- Rebuilds the Entity handle for a live store-held index. -/
def SimState.handleOf (st : SimState) (i : Nat) : Entity :=
  ⟨i, st.registry.generations.getD i 0⟩

/-- Modelled from the spec: query(signature) (section 4.3): picks the
smallest dense store among the signature's types as the driving set,
then filters each candidate through the remaining stores' O(1) has
tests.  A signature naming an unregistered type fails with
UnknownComponentType; the empty signature has no driving store and
yields no candidates. -/
def SimState.query (st : SimState) (sig : List Nat) : Except EcsErr (List Entity) :=
  match sig with
  | [] => .ok []
  | _ :: _ =>
    match st.sigStores sig with
    | none => .error .UnknownComponentType
    | some [] => .ok []
    | some (s0 :: ss) =>
      let (drive, rest) := pickMin s0 ss
      .ok ((drive.slotEntity.filter
        (fun i => rest.all (fun s => s.has i))).map st.handleOf)

/-- The naive full-scan reference for query, written from the spec's
words (section 8, query correctness): scan every store for candidate
entities, keep those whose held component types include the whole
signature. -/
def SimState.referenceQuery (st : SimState) (sig : List Nat) : List Entity :=
  (((st.stores.map (fun p => p.2.slotEntity)).flatten.dedup).filter
    (fun i => sig.all (fun t => st.hasComp t i))).map st.handleOf

/-- Well-formedness of a simulation state: every registered store is
well-formed. -/
def SimState.StoresWF (st : SimState) : Prop :=
  ∀ p ∈ st.stores, Store.WF p.2

/-- Modelled from the spec: a System's logic (sections 3 and 6): at
invocation it receives deltaTime and a capability to the simulation
state, and either returns the updated state or raises a domain error
(SystemExecutionFailure). -/
def SysFun : Type :=
  ℚ → SimState → Except Unit SimState

/-- Modelled from the spec: a registered system: its identity, its
execution orderKey, and its registration index (used to break orderKey
ties). -/
structure SysEntry where
  sid : Nat
  orderKey : Nat
  regIdx : Nat
  run : SysFun

/-- Modelled from the spec: the System Scheduler (section 4.4): the
ordered execution list plus the next registration index. -/
structure Scheduler where
  entries : List SysEntry
  nextIdx : Nat

/-- A scheduler with no registered systems. -/
def Scheduler.emptySched : Scheduler :=
  ⟨[], 0⟩

/-- Inserts a new entry into the ordered execution list: strictly
before the first entry with a greater orderKey, hence after every
already-registered entry with an equal orderKey (stable ties). -/
def insertEntry (e : SysEntry) : List SysEntry → List SysEntry
  | [] => [e]
  | x :: xs =>
    if e.orderKey < x.orderKey then e :: x :: xs else x :: insertEntry e xs

/-- Modelled from the spec: register(System, orderKey) (section 4.4):
adds a system to the ordered execution list; ties in orderKey are
broken by registration order. -/
def Scheduler.registerSys (sch : Scheduler) (sid orderKey : Nat) (f : SysFun) : Scheduler :=
  ⟨insertEntry ⟨sid, orderKey, sch.nextIdx, f⟩ sch.entries, sch.nextIdx + 1⟩

/-- Registers a whole list of (identity, orderKey, logic) triples in
order. -/
def Scheduler.registerAll (sch : Scheduler) (regs : List (Nat × Nat × SysFun)) : Scheduler :=
  regs.foldl (fun s r => s.registerSys r.1 r.2.1 r.2.2) sch

/-- Modelled from the spec: the World seen by the engine's caller: the
simulation state plus the recorded diagnostics (identities of systems
whose execution failed). -/
structure World where
  sim : SimState
  failures : List Nat

/-- Runs the systems of the execution list in order over the
simulation state: a system that fails is skipped (its state change is
discarded) and the tick continues with the next system.  Returns the
final state and the execution trace of (identity, succeeded) pairs. -/
def runSystems (dt : ℚ) : List SysEntry → SimState → SimState × List (Nat × Bool)
  | [], st => (st, [])
  | e :: rest, st =>
    match e.run dt st with
    | .ok st' =>
      let (stf, tr) := runSystems dt rest st'
      (stf, (e.sid, true) :: tr)
    | .error _ =>
      let (stf, tr) := runSystems dt rest st
      (stf, (e.sid, false) :: tr)

/-- Modelled from the spec: tick(World, deltaTime) (section 4.4):
executes every registered system exactly once in execution-list order,
records failed systems as non-fatal diagnostics, then applies the
pending structural operations atomically at the tick boundary. -/
def tick (sch : Scheduler) (dt : ℚ) (w : World) : World × List (Nat × Bool) :=
  let (st, tr) := runSystems dt sch.entries w.sim
  ({ sim := st.applyPending,
     failures := w.failures ++ (tr.filter (fun p => p.2 = false)).map Prod.fst }, tr)

/-- A World-API operation, for stating properties over arbitrary
operation sequences (the operations enumerated in section 4.5 plus the
tick-boundary pending flush). -/
inductive WOp where
  | createOp
  | destroyOp (e : Entity)
  | addCompOp (t : Nat) (e : Entity) (c : Nat)
  | removeCompOp (t : Nat) (e : Entity)
  | registerStoreOp (t : Nat)
  | requestDestroyOp (e : Entity)
  | requestRemoveOp (t : Nat) (e : Entity)
  | requestAddOp (t : Nat) (e : Entity) (c : Nat)
  | applyPendingOp

/-- Applies one World-API operation; a failed operation returns its
error to the caller and leaves the state unchanged (section 7). -/
def SimState.applyWOp (st : SimState) (op : WOp) : SimState :=
  match op with
  | .createOp => st.createEntity.2
  | .destroyOp e => (st.destroyEntityNow e).toOption.getD st
  | .addCompOp t e c => (st.addComponent t e c).toOption.getD st
  | .removeCompOp t e => (st.removeComponent t e).toOption.getD st
  | .registerStoreOp t => st.registerStore t
  | .requestDestroyOp e => st.requestDestroy e
  | .requestRemoveOp t e => st.requestRemove t e
  | .requestAddOp t e c => st.requestAdd t e c
  | .applyPendingOp => st.applyPending

/-- Applies a finite sequence of World-API operations. -/
def SimState.applyWOps (st : SimState) (ops : List WOp) : SimState :=
  ops.foldl SimState.applyWOp st

/-- Registry evolution order: the index space never shrinks and each
slot's generation counter never decreases (spec section 3: generation
counters only increase). -/
def RegLe (r1 r2 : Registry) : Prop :=
  r1.generations.length ≤ r2.generations.length ∧
  ∀ idx, idx < r1.generations.length →
    r1.generations.getD idx 0 ≤ r2.generations.getD idx 0

/-- The execution list is sorted by ascending orderKey, with ties in
orderKey ordered by ascending registration index. -/
def SortedEntries (l : List SysEntry) : Prop :=
  l.Pairwise (fun a b =>
    a.orderKey < b.orderKey ∨ (a.orderKey = b.orderKey ∧ a.regIdx < b.regIdx))

/-- Claim C8: vector normalization is total and never divides by zero:
for every Vector2 (and Vector3) v, when length(v) > 0 normalize returns
the componentwise quotient by the length, and otherwise (e.g. on the
zero vector) it returns the zero vector instead of dividing. -/
theorem normalize_no_division_by_zero :
    (∀ v : Vector2,
      (0 < v.length → v.normalize = ⟨v.x / v.length, v.y / v.length⟩) ∧
      (¬ 0 < v.length → v.normalize = ⟨0, 0⟩)) ∧
    (∀ v : Vector3,
      (0 < Vector3_length v → Vector3_normalize v =
        ⟨v.x / Vector3_length v, v.y / Vector3_length v, v.z / Vector3_length v⟩) ∧
      (¬ 0 < Vector3_length v → Vector3_normalize v = ⟨0, 0, 0⟩)) := by
  constructor
  · intro v
    constructor
    · intro h
      simp [Vector2.normalize, if_pos h]
    · intro h
      simp [Vector2.normalize, if_neg h]
  · intro v
    constructor
    · intro h
      simp [Vector3_normalize, if_pos h]
    · intro h
      simp [Vector3_normalize, if_neg h]

/-- Witness for C8 at concrete inputs: the vector (3, 4) has positive
length 5 and normalizes to (3/5, 4/5); the zero vector has length 0 and
normalizes to the zero vector. -/
theorem normalize_no_division_by_zero_witness :
    Vector2.normalize ⟨3, 4⟩ = ⟨3 / 5, 4 / 5⟩ ∧
    Vector2.normalize ⟨0, 0⟩ = ⟨0, 0⟩ ∧
    Vector3_normalize ⟨0, 0, 0⟩ = ⟨0, 0, 0⟩ := by
  have h5 : Vector2.length ⟨3, 4⟩ = 5 := by
    unfold Vector2.length Vector2.length_squared
    rw [show ((3 : ℚ) * 3 + 4 * 4) = 5 * 5 by norm_num, Rat.sqrt_eq]
    norm_num
  have h0 : Vector2.length ⟨0, 0⟩ = 0 := by
    unfold Vector2.length Vector2.length_squared
    rw [show ((0 : ℚ) * 0 + 0 * 0) = 0 * 0 by norm_num, Rat.sqrt_eq]
    norm_num
  have h0' : Vector3_length ⟨0, 0, 0⟩ = 0 := by
    unfold Vector3_length
    rw [show ((0 : ℚ) * 0 + 0 * 0 + 0 * 0) = 0 * 0 by norm_num, Rat.sqrt_eq]
    norm_num
  refine ⟨?_, ?_, ?_⟩
  · have h := (normalize_no_division_by_zero.1 ⟨3, 4⟩).1 (by rw [h5]; norm_num)
    rw [h, h5]
  · exact (normalize_no_division_by_zero.1 ⟨0, 0⟩).2 (by rw [h0]; norm_num)
  · exact (normalize_no_division_by_zero.2 ⟨0, 0, 0⟩).2 (by rw [h0']; norm_num)

/-- Claim C9: the collision predicates are symmetric in their two
arguments, both for AABB vs AABB and for sphere vs sphere. -/
theorem collision_predicates_symmetric :
    (∀ a b : AABB, aabb_vs_aabb a b = aabb_vs_aabb b a) ∧
    (∀ a b : Sphere, sphere_vs_sphere a b = sphere_vs_sphere b a) := by
  constructor
  · intro a b
    rw [Bool.eq_iff_iff]
    simp only [aabb_vs_aabb, Bool.and_eq_true, decide_eq_true_eq, ge_iff_le]
    tauto
  · intro a b
    simp only [sphere_vs_sphere, decide_eq_decide]
    constructor <;> intro h <;> nlinarith [h]

/-- Claim C10: point containment coincides with overlap against the
degenerate zero-size box: point_vs_aabb x y b is true iff
aabb_vs_aabb (AABB x y x y) b is true. -/
theorem point_vs_aabb_eq_degenerate_aabb :
    ∀ (x y : ℚ) (b : AABB), point_vs_aabb x y b = aabb_vs_aabb ⟨x, y, x, y⟩ b := by
  intro x y b
  rw [Bool.eq_iff_iff]
  simp only [point_vs_aabb, aabb_vs_aabb, Bool.and_eq_true, decide_eq_true_eq, ge_iff_le]
  tauto

theorem Store.wf_empty : Store.empty.WF := by
  constructor
  · rfl
  · intro i k
    simp [Store.empty]

theorem Store.wf_add {s s' : Store} {i c : Nat} (hwf : s.WF) (h : s.add i c = .ok s') :
    s'.WF := by
  obtain ⟨hlen, hiff⟩ := hwf
  by_cases hh : s.has i
  · simp [Store.add, hh] at h
  · simp only [Store.add, hh, Bool.false_eq_true, if_false, Except.ok.injEq] at h
    subst h
    constructor
    · simp [hlen]
    · intro j k
      by_cases hj : j = i
      · subst hj
        simp only [if_pos rfl]
        constructor
        · intro hk
          have hk2 : k = s.dense.length := by
            exact (Option.some.injEq _ _).mp hk.symm
          subst hk2
          rw [hlen, List.getElem?_concat_length]
        · intro hk
          rcases Nat.lt_or_ge k s.slotEntity.length with hk2 | hk2
          · rw [List.getElem?_append_left hk2] at hk
            have h5 := (hiff j k).mpr hk
            have h6 : s.has j = true := by simp [Store.has, h5]
            exact absurd h6 hh
          · rw [List.getElem?_append_right hk2] at hk
            have hk3 : k = s.slotEntity.length := by
              rcases h4 : k - s.slotEntity.length with _ | n
              · omega
              · rw [h4] at hk
                simp at hk
            simp [hk3, hlen]
      · simp only [if_neg hj]
        constructor
        · intro hk
          have h5 := (hiff j k).mp hk
          have hk2 : k < s.slotEntity.length := by
            rcases List.getElem?_eq_some_iff.mp h5 with ⟨h6, _⟩
            exact h6
          rw [List.getElem?_append_left hk2]
          exact h5
        · intro hk
          rcases Nat.lt_or_ge k s.slotEntity.length with hk2 | hk2
          · rw [List.getElem?_append_left hk2] at hk
            exact (hiff j k).mpr hk
          · rw [List.getElem?_append_right hk2] at hk
            rcases h4 : k - s.slotEntity.length with _ | n
            · rw [h4] at hk
              simp at hk
              exact absurd hk.symm hj
            · rw [h4] at hk
              simp at hk

theorem Store.wf_remove {s s' : Store} {i : Nat} (hwf : s.WF) (h : s.remove i = .ok s') :
    s'.WF := by
  obtain ⟨hlen, hiff⟩ := hwf
  cases hes : s.entitySlot i with
  | none => simp [Store.remove, hes] at h
  | some slot =>
    simp only [Store.remove, hes, Except.ok.injEq] at h
    subst h
    have hselr : s.slotEntity[slot]? = some i := (hiff i slot).mp hes
    have hslt : slot < s.slotEntity.length := by
      rcases List.getElem?_eq_some_iff.mp hselr with ⟨h6, _⟩
      exact h6
    set L := s.slotEntity.length with hL
    have hLpos : 0 < L := Nat.lt_of_le_of_lt (Nat.zero_le _) hslt
    have hlast : s.dense.length - 1 = L - 1 := by rw [hlen]
    have hmv : s.slotEntity[L - 1]? = some (s.slotEntity.getD (s.dense.length - 1) 0) := by
      rw [hlast]
      have h7 : L - 1 < L := by omega
      simp [List.getD_eq_getElem?_getD, List.getElem?_eq_getElem h7]
    set movedIdx := s.slotEntity.getD (s.dense.length - 1) 0 with hmidx
    have hmes : s.entitySlot movedIdx = some (L - 1) := (hiff movedIdx (L - 1)).mpr hmv
    constructor
    · simp [hlen]
    · intro j k
      have hdl : ∀ (a : Nat),
          ((s.slotEntity.set slot a).dropLast)[k]? =
            if k < L - 1 then (s.slotEntity.set slot a)[k]? else none := by
        intro a
        rw [List.getElem?_dropLast]
        simp [hL]
      by_cases hj : j = i
      · subst hj
        simp only [if_pos rfl]
        constructor
        · intro hk
          exact absurd hk (by simp)
        · intro hk
          rw [hdl] at hk
          by_cases hk1 : k < L - 1
          · rw [if_pos hk1] at hk
            by_cases hk2 : k = slot
            · subst hk2
              rw [List.getElem?_set_self hslt] at hk
              have h8 : movedIdx = j := by
                exact (Option.some.injEq _ _).mp hk
              rw [← h8] at hes
              rw [hmes] at hes
              have h9 : k = L - 1 := by
                exact (Option.some.injEq _ _).mp hes.symm
              omega
            · rw [List.getElem?_set_ne (fun hx => hk2 hx.symm)] at hk
              have h5 := (hiff j k).mpr hk
              rw [hes] at h5
              have h9 : slot = k := by
                exact (Option.some.injEq _ _).mp h5
              exact absurd h9.symm hk2
          · rw [if_neg hk1] at hk
            exact absurd hk (by simp)
      · by_cases hj2 : j = movedIdx
        · subst hj2
          have hji : movedIdx ≠ i := hj
          have hslot_ne : slot ≠ L - 1 := by
            intro hx
            rw [hx] at hselr
            rw [hselr] at hmv
            exact hji ((Option.some.injEq _ _).mp hmv.symm)
          have hslot_lt : slot < L - 1 := by omega
          simp only [if_neg hj, if_pos rfl]
          constructor
          · intro hk
            have hk2 : slot = k := (Option.some.injEq _ _).mp hk
            subst hk2
            rw [hdl, if_pos hslot_lt, List.getElem?_set_self hslt]
          · intro hk
            rw [hdl] at hk
            by_cases hk1 : k < L - 1
            · rw [if_pos hk1] at hk
              by_cases hk2 : k = slot
              · simp [hk2]
              · rw [List.getElem?_set_ne (fun hx => hk2 hx.symm)] at hk
                have h5 := (hiff movedIdx k).mpr hk
                rw [hmes] at h5
                have h9 : L - 1 = k := (Option.some.injEq _ _).mp h5
                omega
            · rw [if_neg hk1] at hk
              exact absurd hk (by simp)
        · simp only [if_neg hj, if_neg hj2]
          constructor
          · intro hk
            have h5 := (hiff j k).mp hk
            have hk4 : k < L := by
              rcases List.getElem?_eq_some_iff.mp h5 with ⟨h6, _⟩
              exact h6
            have hk2 : k ≠ slot := by
              intro hx
              rw [hx] at h5
              rw [hselr] at h5
              exact hj ((Option.some.injEq _ _).mp h5).symm
            have hk3 : k ≠ L - 1 := by
              intro hx
              rw [hx] at h5
              rw [hmv] at h5
              exact hj2 ((Option.some.injEq _ _).mp h5).symm
            rw [hdl, if_pos (by omega), List.getElem?_set_ne (fun hx => hk2 hx.symm)]
            exact h5
          · intro hk
            rw [hdl] at hk
            by_cases hk1 : k < L - 1
            · rw [if_pos hk1] at hk
              by_cases hk2 : k = slot
              · subst hk2
                rw [List.getElem?_set_self hslt] at hk
                exact absurd ((Option.some.injEq _ _).mp hk).symm hj2
              · rw [List.getElem?_set_ne (fun hx => hk2 hx.symm)] at hk
                exact (hiff j k).mpr hk
            · rw [if_neg hk1] at hk
              exact absurd hk (by simp)

theorem Store.wf_applyOp {s : Store} (hwf : s.WF) (op : StoreOp) :
    (s.applyOp op).WF := by
  cases op with
  | addOp i c =>
    cases h : s.add i c with
    | ok s' =>
      have := Store.wf_add hwf h
      simpa [Store.applyOp, h] using this
    | error err => simpa [Store.applyOp, h] using hwf
  | removeOp i =>
    cases h : s.remove i with
    | ok s' =>
      have := Store.wf_remove hwf h
      simpa [Store.applyOp, h] using this
    | error err => simpa [Store.applyOp, h] using hwf

theorem Store.wf_applyOps {s : Store} (hwf : s.WF) (ops : List StoreOp) :
    (s.applyOps ops).WF := by
  induction ops generalizing s with
  | nil => exact hwf
  | cons op rest ih =>
    exact ih (Store.wf_applyOp hwf op)

theorem Store.mem_slotEntity_iff_has {s : Store} (hwf : s.WF) (i : Nat) :
    i ∈ s.slotEntity ↔ s.has i = true := by
  rw [List.mem_iff_getElem?, Store.has, Option.isSome_iff_exists]
  constructor
  · rintro ⟨k, hk⟩
    exact ⟨k, (hwf.2 i k).mpr hk⟩
  · rintro ⟨k, hk⟩
    exact ⟨k, (hwf.2 i k).mp hk⟩

theorem Store.nodup_slotEntity {s : Store} (hwf : s.WF) : s.slotEntity.Nodup := by
  rw [List.nodup_iff_getElem?_ne_getElem?]
  intro a b hab hb hne
  have ha : a < s.slotEntity.length := Nat.lt_trans hab hb
  rw [List.getElem?_eq_getElem ha, List.getElem?_eq_getElem hb] at hne
  have h1 : s.entitySlot (s.slotEntity[a]) = some a :=
    (hwf.2 _ a).mpr (List.getElem?_eq_getElem ha)
  have h2 : s.entitySlot (s.slotEntity[b]) = some b :=
    (hwf.2 _ b).mpr (List.getElem?_eq_getElem hb)
  have h3 : s.slotEntity[a] = s.slotEntity[b] := by
    exact (Option.some.injEq _ _).mp hne
  rw [h3, h2] at h1
  have : b = a := (Option.some.injEq _ _).mp h1
  omega

theorem Store.slot_surjective {s : Store} (hwf : s.WF) {k : Nat} (hk : k < s.dense.length) :
    ∃ i, s.entitySlot i = some k := by
  have hk2 : k < s.slotEntity.length := by rw [← hwf.1]; exact hk
  exact ⟨s.slotEntity[k], (hwf.2 _ k).mpr (List.getElem?_eq_getElem hk2)⟩

theorem Store.remove_then_not_has (s : Store) (i : Nat) :
    (((s.remove i).toOption.getD s)).has i = false := by
  cases hes : s.entitySlot i with
  | none => simp [Store.remove, hes, Store.has, Except.toOption]
  | some slot => simp [Store.remove, hes, Store.has, Except.toOption]

/-- Claim C3: for every finite sequence of add and remove operations on
a Component Store, the dense array never contains unused slots (the
arrays stay parallel and every dense slot is owned by exactly one
mapped entity), and iterate() yields exactly the set of entities
currently holding the component, each exactly once. -/
theorem store_density_invariant (ops : List StoreOp) :
    (Store.empty.applyOps ops).dense.length =
      (Store.empty.applyOps ops).slotEntity.length ∧
    (∀ k, k < (Store.empty.applyOps ops).dense.length →
      ∃ i, (Store.empty.applyOps ops).entitySlot i = some k) ∧
    ((Store.empty.applyOps ops).iterate.map Prod.fst).Nodup ∧
    (∀ i, i ∈ (Store.empty.applyOps ops).iterate.map Prod.fst ↔
      (Store.empty.applyOps ops).has i = true) := by
  have hwf : (Store.empty.applyOps ops).WF := Store.wf_applyOps Store.wf_empty ops
  have hmapfst : (Store.empty.applyOps ops).iterate.map Prod.fst =
      (Store.empty.applyOps ops).slotEntity := by
    rw [Store.iterate, List.map_fst_zip]
    rw [← hwf.1]
  refine ⟨hwf.1, ?_, ?_, ?_⟩
  · intro k hk
    exact Store.slot_surjective hwf hk
  · rw [hmapfst]
    exact Store.nodup_slotEntity hwf
  · intro i
    rw [hmapfst]
    exact Store.mem_slotEntity_iff_has hwf i

/-- Claim C7: Component Store add(E, c) fails with DuplicateComponent
iff E already holds a component of this type; on that failure the
store is unchanged (the existing component is not overwritten), and on
success the new component is inserted at the end of the dense array. -/
theorem store_add_rejects_duplicates :
    ∀ (s : Store) (i c : Nat),
      (s.add i c = Except.error EcsErr.DuplicateComponent ↔ s.has i = true) ∧
      (s.has i = true → s.applyOp (StoreOp.addOp i c) = s) ∧
      (s.has i = false → ∃ s', s.add i c = Except.ok s' ∧
        s'.dense = s.dense ++ [c] ∧ s'.has i = true) := by
  intro s i c
  refine ⟨⟨?_, ?_⟩, ?_, ?_⟩
  · intro h
    by_cases hh : s.has i
    · exact hh
    · simp [Store.add, hh] at h
  · intro h
    simp [Store.add, h]
  · intro h
    simp [Store.applyOp, Store.add, h, Except.toOption]
  · intro h
    refine ⟨⟨s.dense ++ [c], s.slotEntity ++ [i],
      fun j => if j = i then some s.dense.length else s.entitySlot j⟩,
      by simp [Store.add, h], rfl, ?_⟩
    simp [Store.has]

/-- Witness for C7 at concrete inputs: adding component 7 to entity 3
in the empty store succeeds and appends to the dense array; adding to
entity 3 again fails with DuplicateComponent and leaves the store
unchanged. -/
theorem store_add_rejects_duplicates_witness :
    ((Store.empty.applyOps [StoreOp.addOp 3 7]).add 3 9 =
      Except.error EcsErr.DuplicateComponent) ∧
    ((Store.empty.applyOps [StoreOp.addOp 3 7]).applyOp (StoreOp.addOp 3 9) =
      Store.empty.applyOps [StoreOp.addOp 3 7]) ∧
    (∃ s', Store.empty.add 3 7 = Except.ok s' ∧
      s'.dense = [7] ∧ s'.has 3 = true) := by
  refine ⟨?_, ?_, ?_⟩
  · exact (store_add_rejects_duplicates (Store.empty.applyOps [StoreOp.addOp 3 7]) 3 9).1.mpr rfl
  · exact (store_add_rejects_duplicates (Store.empty.applyOps [StoreOp.addOp 3 7]) 3 9).2.1 rfl
  · obtain ⟨s', h1, h2, h3⟩ :=
      (store_add_rejects_duplicates Store.empty 3 7).2.2 rfl
    exact ⟨s', h1, by rw [h2]; rfl, h3⟩

theorem RegLe.rfl' (r : Registry) : RegLe r r :=
  ⟨Nat.le_refl _, fun _ _ => Nat.le_refl _⟩

theorem RegLe.trans' {r1 r2 r3 : Registry} (h1 : RegLe r1 r2) (h2 : RegLe r2 r3) :
    RegLe r1 r3 :=
  ⟨Nat.le_trans h1.1 h2.1,
   fun idx hidx => Nat.le_trans (h1.2 idx hidx) (h2.2 idx (Nat.lt_of_lt_of_le hidx h1.1))⟩

theorem Registry.isAlive_parts {r : Registry} {e : Entity} (h : r.isAlive e = true) :
    e.index < r.generations.length ∧ r.generations.getD e.index 0 = e.generation := by
  rw [Registry.isAlive, Bool.and_eq_true, decide_eq_true_eq, decide_eq_true_eq] at h
  exact h

theorem regLe_create (st : SimState) : RegLe st.registry st.createEntity.2.registry := by
  rw [SimState.createEntity, Registry.create]
  cases hf : st.registry.freeList with
  | cons i rest =>
    exact RegLe.rfl' _
  | nil =>
    constructor
    · simp
    · intro idx hidx
      simp [List.getD_eq_getElem?_getD, List.getElem?_append_left hidx]

theorem registry_destroyNow_getD (st : SimState) (e : Entity) :
    RegLe st.registry (((st.destroyEntityNow e).toOption.getD st)).registry := by
  rw [SimState.destroyEntityNow, Registry.destroy]
  by_cases h : st.registry.isAlive e
  · obtain ⟨hlt, hgen⟩ := Registry.isAlive_parts h
    simp only [h, if_true, Except.toOption, Option.getD_some]
    constructor
    · simp
    · intro idx hidx
      by_cases hi : idx = e.index
      · subst hi
        rw [hgen]
        simp [List.getD_eq_getElem?_getD, List.getElem?_set_self hlt]
      · simp [List.getD_eq_getElem?_getD, List.getElem?_set_ne (fun hx => hi hx.symm)]
  · simp only [h, Bool.false_eq_true, if_false, Except.toOption, Option.getD_none]
    exact RegLe.rfl' _

theorem registry_addComponent_eq (st : SimState) (t : Nat) (e : Entity) (c : Nat) :
    (((st.addComponent t e c).toOption.getD st)).registry = st.registry := by
  rw [SimState.addComponent]
  by_cases h : st.registry.isAlive e
  · simp only [h, if_true]
    cases hf : st.findStore t with
    | none => simp [Except.toOption]
    | some s =>
      cases ha : s.add e.index c with
      | ok s' => simp [ha, Except.toOption, SimState.updateStore]
      | error err => simp [ha, Except.toOption]
  · simp [h, Except.toOption]

theorem registry_removeComponent_eq (st : SimState) (t : Nat) (e : Entity) :
    (((st.removeComponent t e).toOption.getD st)).registry = st.registry := by
  rw [SimState.removeComponent]
  by_cases h : st.registry.isAlive e
  · simp only [h, if_true]
    cases hf : st.findStore t with
    | none => simp [Except.toOption]
    | some s =>
      cases ha : s.remove e.index with
      | ok s' => simp [ha, Except.toOption, SimState.updateStore]
      | error err => simp [ha, Except.toOption]
  · simp [h, Except.toOption]

theorem regLe_applyPendingOp (st : SimState) (p : Pending) :
    RegLe st.registry (st.applyPendingOp p).registry := by
  cases p with
  | destroyP e => exact registry_destroyNow_getD st e
  | removeP t e =>
    rw [SimState.applyPendingOp, registry_removeComponent_eq]
    exact RegLe.rfl' _
  | addP t e c =>
    rw [SimState.applyPendingOp, registry_addComponent_eq]
    exact RegLe.rfl' _

theorem regLe_pendingFold (ps : List Pending) :
    ∀ st : SimState, RegLe st.registry ((ps.foldl SimState.applyPendingOp st)).registry := by
  induction ps with
  | nil => exact fun st => RegLe.rfl' _
  | cons p rest ih =>
    intro st
    exact RegLe.trans' (regLe_applyPendingOp st p) (ih (st.applyPendingOp p))

theorem regLe_applyPending (st : SimState) : RegLe st.registry st.applyPending.registry := by
  rw [SimState.applyPending]
  exact regLe_pendingFold st.pending { st with pending := [] }

theorem regLe_applyWOp (st : SimState) (op : WOp) :
    RegLe st.registry (st.applyWOp op).registry := by
  cases op with
  | createOp => exact regLe_create st
  | destroyOp e => exact registry_destroyNow_getD st e
  | addCompOp t e c =>
    rw [SimState.applyWOp, registry_addComponent_eq]
    exact RegLe.rfl' _
  | removeCompOp t e =>
    rw [SimState.applyWOp, registry_removeComponent_eq]
    exact RegLe.rfl' _
  | registerStoreOp t =>
    rw [SimState.applyWOp, SimState.registerStore]
    cases st.findStore t
    · exact RegLe.rfl' _
    · exact RegLe.rfl' _
  | requestDestroyOp e => exact RegLe.rfl' _
  | requestRemoveOp t e => exact RegLe.rfl' _
  | requestAddOp t e c => exact RegLe.rfl' _
  | applyPendingOp => exact regLe_applyPending st

theorem regLe_applyWOps (ops : List WOp) :
    ∀ st : SimState, RegLe st.registry ((st.applyWOps ops)).registry := by
  induction ops with
  | nil => exact fun st => RegLe.rfl' _
  | cons op rest ih =>
    intro st
    exact RegLe.trans' (regLe_applyWOp st op) (ih (st.applyWOp op))

theorem destroyNow_ok_registry {st st' : SimState} {e : Entity}
    (h : st.destroyEntityNow e = Except.ok st') :
    e.index < st'.registry.generations.length ∧
    st'.registry.generations.getD e.index 0 = e.generation + 1 := by
  rw [SimState.destroyEntityNow, Registry.destroy] at h
  by_cases ha : st.registry.isAlive e
  · obtain ⟨hlt, hgen⟩ := Registry.isAlive_parts ha
    simp only [ha, if_true, Except.ok.injEq] at h
    subst h
    constructor
    · simpa using hlt
    · simp [List.getD_eq_getElem?_getD, List.getElem?_set_self hlt]
  · simp [ha] at h

theorem isAlive_false_of_regLe {r1 r2 : Registry} {e : Entity}
    (hlt : e.index < r1.generations.length)
    (hgen : r1.generations.getD e.index 0 = e.generation + 1)
    (hle : RegLe r1 r2) : r2.isAlive e = false := by
  have h1 : e.generation + 1 ≤ r2.generations.getD e.index 0 := by
    rw [← hgen]
    exact hle.2 e.index hlt
  have h2 : r2.generations.getD e.index 0 ≠ e.generation := by omega
  rw [Registry.isAlive, decide_eq_false h2, Bool.and_false]

/-- Claim C2: once an entity handle is destroyed, then whatever
World-API operations follow (including re-creating an entity at the
same index), isAlive of the stale handle is false and destroy,
addComponent and removeComponent invoked with it all fail with
StaleEntity; in particular a second destroy returns StaleEntity. -/
theorem stale_handle_rejected (st st' : SimState) (e : Entity)
    (hdestroy : st.destroyEntityNow e = Except.ok st') (ops : List WOp) :
    ((st'.applyWOps ops).registry.isAlive e = false) ∧
    ((st'.applyWOps ops).destroyEntityNow e = Except.error EcsErr.StaleEntity) ∧
    (∀ t c, (st'.applyWOps ops).addComponent t e c = Except.error EcsErr.StaleEntity) ∧
    (∀ t, (st'.applyWOps ops).removeComponent t e = Except.error EcsErr.StaleEntity) := by
  obtain ⟨hlt, hgen⟩ := destroyNow_ok_registry hdestroy
  have hle := regLe_applyWOps ops st'
  have hdead : (st'.applyWOps ops).registry.isAlive e = false :=
    isAlive_false_of_regLe hlt hgen hle
  refine ⟨hdead, ?_, ?_, ?_⟩
  · rw [SimState.destroyEntityNow, Registry.destroy, hdead]
    simp
  · intro t c
    rw [SimState.addComponent, hdead]
    simp
  · intro t
    rw [SimState.removeComponent, hdead]
    simp

/-- Witness for C2 at concrete inputs: create entity (0, 0) in the
empty world, destroy it, then create a fresh entity (which re-occupies
index 0 with generation 1); the stale handle (0, 0) is not alive and a
second destroy with it fails with StaleEntity. -/
theorem stale_handle_rejected_witness :
    ((((SimState.empty.createEntity.2.destroyEntityNow ⟨0, 0⟩).toOption.getD
        SimState.empty.createEntity.2).applyWOps [WOp.createOp]).registry.isAlive
        ⟨0, 0⟩ = false) ∧
    ((((SimState.empty.createEntity.2.destroyEntityNow ⟨0, 0⟩).toOption.getD
        SimState.empty.createEntity.2).applyWOps [WOp.createOp]).destroyEntityNow
        ⟨0, 0⟩ = Except.error EcsErr.StaleEntity) := by
  have h := stale_handle_rejected SimState.empty.createEntity.2
    ((SimState.empty.createEntity.2.destroyEntityNow ⟨0, 0⟩).toOption.getD
      SimState.empty.createEntity.2) ⟨0, 0⟩ rfl [WOp.createOp]
  exact ⟨h.1, h.2.1⟩

/-- Claim C6: tick is a deterministic function of the simulation state
and its inputs: two Worlds agreeing on the simulation state (even if
their recorded diagnostics differ) produce, for the same registered
systems and deltaTime, identical final component states and identical
execution traces. -/
theorem tick_deterministic (sch : Scheduler) (dt : ℚ) (w1 w2 : World)
    (h : w1.sim = w2.sim) :
    (tick sch dt w1).1.sim = (tick sch dt w2).1.sim ∧
    (tick sch dt w1).2 = (tick sch dt w2).2 := by
  obtain ⟨s1, f1⟩ := w1
  obtain ⟨s2, f2⟩ := w2
  have h2 : s1 = s2 := h
  subst h2
  exact ⟨rfl, rfl⟩

/-- Witness for C6 at concrete inputs: ticking the empty world twice
(once with a nonempty diagnostics log) gives the same final simulation
state and trace. -/
theorem tick_deterministic_witness :
    (tick Scheduler.emptySched 0 ⟨SimState.empty, []⟩).1.sim =
      (tick Scheduler.emptySched 0 ⟨SimState.empty, [99]⟩).1.sim ∧
    (tick Scheduler.emptySched 0 ⟨SimState.empty, []⟩).2 =
      (tick Scheduler.emptySched 0 ⟨SimState.empty, [99]⟩).2 :=
  tick_deterministic Scheduler.emptySched 0 ⟨SimState.empty, []⟩ ⟨SimState.empty, [99]⟩ rfl

theorem runSystems_trace (dt : ℚ) (es : List SysEntry) :
    ∀ st : SimState, (runSystems dt es st).2.map Prod.fst = es.map SysEntry.sid := by
  induction es with
  | nil => intro st; rfl
  | cons e rest ih =>
    intro st
    rw [runSystems]
    cases e.run dt st with
    | ok st' => simp [ih st']
    | error err => simp [ih st]

theorem insertEntry_perm (e : SysEntry) (l : List SysEntry) :
    List.Perm (insertEntry e l) (e :: l) := by
  induction l with
  | nil => exact List.Perm.refl _
  | cons x xs ih =>
    rw [insertEntry]
    by_cases h : e.orderKey < x.orderKey
    · rw [if_pos h]
    · rw [if_neg h]
      exact (ih.cons x).trans (List.Perm.swap e x xs)

theorem sysR_le {a b : SysEntry}
    (h : a.orderKey < b.orderKey ∨ (a.orderKey = b.orderKey ∧ a.regIdx < b.regIdx)) :
    a.orderKey ≤ b.orderKey := by
  rcases h with h | ⟨h, _⟩
  · exact Nat.le_of_lt h
  · exact Nat.le_of_eq h

theorem sorted_insertEntry (e : SysEntry) (l : List SysEntry)
    (hs : SortedEntries l) (hmax : ∀ x ∈ l, x.regIdx < e.regIdx) :
    SortedEntries (insertEntry e l) := by
  induction l with
  | nil => simp [insertEntry, SortedEntries]
  | cons x xs ih =>
    rw [SortedEntries, List.pairwise_cons] at hs
    obtain ⟨hx, hxs⟩ := hs
    rw [insertEntry]
    by_cases h : e.orderKey < x.orderKey
    · rw [if_pos h]
      rw [SortedEntries, List.pairwise_cons]
      constructor
      · intro b hb
        rw [List.mem_cons] at hb
        rcases hb with hb | hb
        · rw [hb]
          exact Or.inl h
        · exact Or.inl (Nat.lt_of_lt_of_le h (sysR_le (hx b hb)))
      · rw [List.pairwise_cons]
        exact ⟨hx, hxs⟩
    · rw [if_neg h]
      rw [SortedEntries, List.pairwise_cons]
      constructor
      · intro b hb
        have hb2 : b ∈ e :: xs := (insertEntry_perm e xs).mem_iff.mp hb
        rw [List.mem_cons] at hb2
        rcases hb2 with hb2 | hb2
        · rw [hb2]
          rcases Nat.lt_or_ge x.orderKey e.orderKey with h2 | h2
          · exact Or.inl h2
          · refine Or.inr ⟨?_, hmax x (by simp)⟩
            omega
        · exact hx b hb2
      · exact ih hxs (fun y hy => hmax y (List.mem_cons_of_mem x hy))

/-- The sid/orderKey/regIdx content of a system entry (the run function
is dropped so permutations can be stated with decidable equality). -/
theorem registerSys_entries (sch : Scheduler) (sid orderKey : Nat) (f : SysFun) :
    List.Perm (sch.registerSys sid orderKey f).entries
      ((⟨sid, orderKey, sch.nextIdx, f⟩ : SysEntry) :: sch.entries) :=
  insertEntry_perm _ _

theorem schedInv_registerSys {sch : Scheduler}
    (hs : SortedEntries sch.entries) (hb : ∀ x ∈ sch.entries, x.regIdx < sch.nextIdx)
    (sid orderKey : Nat) (f : SysFun) :
    SortedEntries (sch.registerSys sid orderKey f).entries ∧
    ∀ x ∈ (sch.registerSys sid orderKey f).entries,
      x.regIdx < (sch.registerSys sid orderKey f).nextIdx := by
  constructor
  · exact sorted_insertEntry _ _ hs hb
  · intro x hx
    have hx2 : x ∈ (⟨sid, orderKey, sch.nextIdx, f⟩ : SysEntry) :: sch.entries :=
      (insertEntry_perm _ _).mem_iff.mp hx
    rw [List.mem_cons] at hx2
    rcases hx2 with hx2 | hx2
    · rw [hx2]
      exact Nat.lt_succ_self _
    · exact Nat.lt_succ_of_lt (hb x hx2)

theorem registerAll_entries_perm (regs : List (Nat × Nat × SysFun)) :
    ∀ sch : Scheduler,
      List.Perm
        ((Scheduler.registerAll sch regs).entries.map (fun e => (e.sid, e.orderKey, e.regIdx)))
        (sch.entries.map (fun e => (e.sid, e.orderKey, e.regIdx)) ++
          (List.enumFrom sch.nextIdx regs).map (fun p => (p.2.1, p.2.2.1, p.1))) := by
  induction regs with
  | nil => intro sch; simp [Scheduler.registerAll]
  | cons r rs ih =>
    intro sch
    have h1 := ih (sch.registerSys r.1 r.2.1 r.2.2)
    have h2 : List.Perm
        ((sch.registerSys r.1 r.2.1 r.2.2).entries.map
          (fun e => (e.sid, e.orderKey, e.regIdx)))
        ((r.1, r.2.1, sch.nextIdx) ::
          sch.entries.map (fun e => (e.sid, e.orderKey, e.regIdx))) :=
      (registerSys_entries sch r.1 r.2.1 r.2.2).map _
    have h3 := h1.trans (h2.append_right _)
    have h4 : List.Perm
        ((Scheduler.registerAll sch (r :: rs)).entries.map
          (fun e => (e.sid, e.orderKey, e.regIdx)))
        ((r.1, r.2.1, sch.nextIdx) ::
          (sch.entries.map (fun e => (e.sid, e.orderKey, e.regIdx)) ++
            (List.enumFrom (sch.registerSys r.1 r.2.1 r.2.2).nextIdx rs).map
              (fun p => (p.2.1, p.2.2.1, p.1)))) := by
      rw [Scheduler.registerAll]
      exact h3
    rw [List.enumFrom]
    simp only [List.map_cons]
    exact h4.trans (List.perm_middle.symm)

theorem registerAll_sorted (regs : List (Nat × Nat × SysFun)) :
    ∀ sch : Scheduler, SortedEntries sch.entries →
      (∀ x ∈ sch.entries, x.regIdx < sch.nextIdx) →
      SortedEntries (Scheduler.registerAll sch regs).entries := by
  induction regs with
  | nil => intro sch hs _; exact hs
  | cons r rs ih =>
    intro sch hs hb
    obtain ⟨hs', hb'⟩ := schedInv_registerSys hs hb r.1 r.2.1 r.2.2
    exact ih _ hs' hb'

/-- Claim C5: ticking a world whose systems were registered via
register executes every registered system exactly once, in ascending
orderKey with ties broken by registration order, and a failing system
does not prevent subsequent systems from executing: the trace always
lists every entry of the (sorted) execution list in order, and
failures are recorded in the diagnostics while the tick completes. -/
theorem tick_executes_all_systems_in_order
    (regs : List (Nat × Nat × SysFun)) (dt : ℚ) (w : World) :
    ((tick (Scheduler.registerAll Scheduler.emptySched regs) dt w).2.map Prod.fst =
      (Scheduler.registerAll Scheduler.emptySched regs).entries.map SysEntry.sid) ∧
    SortedEntries (Scheduler.registerAll Scheduler.emptySched regs).entries ∧
    (List.Perm
      ((Scheduler.registerAll Scheduler.emptySched regs).entries.map
        (fun e => (e.sid, e.orderKey, e.regIdx)))
      (regs.enum.map (fun p => (p.2.1, p.2.2.1, p.1)))) ∧
    ((tick (Scheduler.registerAll Scheduler.emptySched regs) dt w).1.failures =
      w.failures ++
        (((tick (Scheduler.registerAll Scheduler.emptySched regs) dt w).2.filter
          (fun p => p.2 = false)).map Prod.fst)) := by
  refine ⟨?_, ?_, ?_, ?_⟩
  · simp only [tick]
    exact runSystems_trace dt _ w.sim
  · exact registerAll_sorted regs Scheduler.emptySched
      (by simp [Scheduler.emptySched, SortedEntries]) (by simp [Scheduler.emptySched])
  · have h := registerAll_entries_perm regs Scheduler.emptySched
    simpa [Scheduler.emptySched, List.enum] using h
  · simp only [tick]

theorem findStore_mem {st : SimState} {t : Nat} {s : Store}
    (h : st.findStore t = some s) : (t, s) ∈ st.stores := by
  rw [SimState.findStore, Option.map_eq_some'] at h
  obtain ⟨pr, hfind, hsnd⟩ := h
  have hmem := List.mem_of_find?_eq_some hfind
  have hp := List.find?_some hfind
  have ht : pr.1 = t := by simpa using hp
  have : (t, s) = pr := by
    rw [← ht, ← hsnd]
  rw [this]
  exact hmem

theorem hasComp_iff {st : SimState} {t i : Nat} :
    st.hasComp t i = true ↔ ∃ s, st.findStore t = some s ∧ s.has i = true := by
  rw [SimState.hasComp]
  cases h : st.findStore t with
  | none => simp
  | some s => simp

theorem sigStores_forall2 {st : SimState} :
    ∀ {sig : List Nat} {ss : List Store}, st.sigStores sig = some ss →
      List.Forall₂ (fun t s => st.findStore t = some s) sig ss := by
  intro sig
  induction sig with
  | nil =>
    intro ss h
    rw [SimState.sigStores] at h
    cases h
    exact List.Forall₂.nil
  | cons t ts ih =>
    intro ss h
    rw [SimState.sigStores] at h
    cases hf : st.findStore t with
    | none => rw [hf] at h; cases h
    | some s =>
      rw [hf] at h
      cases hrest : st.sigStores ts with
      | none => rw [hrest] at h; cases h
      | some ss' =>
        rw [hrest] at h
        cases h
        exact List.Forall₂.cons hf (ih hrest)

theorem sigStores_total {st : SimState} :
    ∀ {sig : List Nat}, (∀ t ∈ sig, (st.findStore t).isSome = true) →
      ∃ ss, st.sigStores sig = some ss := by
  intro sig
  induction sig with
  | nil => intro _; exact ⟨[], rfl⟩
  | cons t ts ih =>
    intro h
    have ht := h t (by simp)
    rw [Option.isSome_iff_exists] at ht
    obtain ⟨s, hs⟩ := ht
    obtain ⟨ss', hss'⟩ := ih (fun t' ht' => h t' (List.mem_cons_of_mem t ht'))
    exact ⟨s :: ss', by rw [SimState.sigStores, hs, hss']⟩

theorem pickMin_perm :
    ∀ (l : List Store) (b : Store),
      List.Perm ((pickMin b l).1 :: (pickMin b l).2) (b :: l) := by
  intro l
  induction l with
  | nil => intro b; exact List.Perm.refl _
  | cons s rest ih =>
    intro b
    rw [pickMin]
    by_cases h : s.dense.length < b.dense.length
    · rw [if_pos h]
      rcases hp : pickMin s rest with ⟨d, r⟩
      have hdr := ih s
      rw [hp] at hdr
      dsimp only
      exact (List.Perm.swap b d r).trans (hdr.cons b)
    · rw [if_neg h]
      rcases hp : pickMin b rest with ⟨d, r⟩
      have hdr := ih b
      rw [hp] at hdr
      dsimp only
      exact ((List.Perm.swap s d r).trans (hdr.cons s)).trans (List.Perm.swap b s rest)

theorem forall2_has_iff {st : SimState} :
    ∀ {sig : List Nat} {ss : List Store},
      List.Forall₂ (fun t s => st.findStore t = some s) sig ss →
      ∀ i, ((∀ t ∈ sig, st.hasComp t i = true) ↔ (∀ s ∈ ss, s.has i = true)) := by
  intro sig ss h
  induction h with
  | nil => intro i; simp
  | cons ht hrest ih =>
    intro i
    rename_i t s ts ss'
    simp only [List.mem_cons, forall_eq_or_imp]
    constructor
    · rintro ⟨h1, h2⟩
      refine ⟨?_, (ih i).mp h2⟩
      rw [SimState.hasComp, ht] at h1
      exact h1
    · rintro ⟨h1, h2⟩
      refine ⟨?_, (ih i).mpr h2⟩
      rw [SimState.hasComp, ht]
      exact h1

theorem storesWF_forall2 {st : SimState} (hwf : st.StoresWF) :
    ∀ {sig : List Nat} {ss : List Store},
      List.Forall₂ (fun t s => st.findStore t = some s) sig ss →
      ∀ s ∈ ss, s.WF := by
  intro sig ss h
  induction h with
  | nil => simp
  | cons ht hrest ih =>
    rename_i t s ts ss'
    intro s' hs'
    rw [List.mem_cons] at hs'
    rcases hs' with hs' | hs'
    · rw [hs']
      exact hwf _ (findStore_mem ht)
    · exact ih s' hs'

theorem query_ok_char {st : SimState} {sig : List Nat} {l : List Entity}
    (hwf : st.StoresWF) (hne : sig ≠ []) (hq : st.query sig = Except.ok l) :
    ∀ ent, ent ∈ l ↔
      ((∀ t ∈ sig, st.hasComp t ent.index = true) ∧ ent = st.handleOf ent.index) := by
  rcases sig with _ | ⟨t0, ts⟩
  · exact absurd rfl hne
  cases hss : st.sigStores (t0 :: ts) with
  | none => rw [SimState.query, hss] at hq; cases hq
  | some ss =>
    have hf2 := sigStores_forall2 hss
    cases ss with
    | nil => cases hf2
    | cons s0 ss' =>
      rcases hpm : pickMin s0 ss' with ⟨drive, rest⟩
      simp only [SimState.query, hss, hpm, Except.ok.injEq] at hq
      subst hq
      have hperm : List.Perm (drive :: rest) (s0 :: ss') := by
        have := pickMin_perm ss' s0
        rw [hpm] at this
        exact this
      have hwfall : ∀ s ∈ s0 :: ss', s.WF := storesWF_forall2 hwf hf2
      have hdrive_wf : drive.WF :=
        hwfall drive (hperm.mem_iff.mp (by simp))
      intro ent
      rw [List.mem_map]
      constructor
      · rintro ⟨i, hi, heq⟩
        rw [List.mem_filter] at hi
        obtain ⟨hmem, hall⟩ := hi
        have hidx : ent.index = i := by rw [← heq]; rfl
        have hhasdrive : drive.has i = true :=
          (Store.mem_slotEntity_iff_has hdrive_wf i).mp hmem
        have hrest : ∀ s ∈ rest, s.has i = true := by
          rw [List.all_eq_true] at hall
          exact hall
        have hallss : ∀ s ∈ s0 :: ss', s.has i = true := by
          intro s hs
          have hs2 : s ∈ drive :: rest := hperm.mem_iff.mpr hs
          rw [List.mem_cons] at hs2
          rcases hs2 with hs2 | hs2
          · rw [hs2]; exact hhasdrive
          · exact hrest s hs2
        refine ⟨?_, ?_⟩
        · rw [hidx]
          exact (forall2_has_iff hf2 i).mpr hallss
        · rw [hidx, heq]
      · rintro ⟨hall, hent⟩
        refine ⟨ent.index, ?_, hent.symm⟩
        have hallss := (forall2_has_iff hf2 ent.index).mp hall
        rw [List.mem_filter]
        constructor
        · refine (Store.mem_slotEntity_iff_has hdrive_wf ent.index).mpr ?_
          exact hallss drive (hperm.mem_iff.mp (by simp))
        · rw [List.all_eq_true]
          intro s hs
          exact hallss s (hperm.mem_iff.mp (List.mem_cons_of_mem drive hs))

theorem referenceQuery_char {st : SimState} {sig : List Nat}
    (hwf : st.StoresWF) (hne : sig ≠ []) :
    ∀ ent, ent ∈ st.referenceQuery sig ↔
      ((∀ t ∈ sig, st.hasComp t ent.index = true) ∧ ent = st.handleOf ent.index) := by
  intro ent
  rw [SimState.referenceQuery, List.mem_map]
  constructor
  · rintro ⟨i, hi, heq⟩
    rw [List.mem_filter] at hi
    obtain ⟨_, hall⟩ := hi
    have hidx : ent.index = i := by rw [← heq]; rfl
    rw [List.all_eq_true] at hall
    refine ⟨?_, ?_⟩
    · rw [hidx]
      exact fun t ht => hall t ht
    · rw [hidx, heq]
  · rintro ⟨hall, hent⟩
    refine ⟨ent.index, ?_, hent.symm⟩
    rw [List.mem_filter]
    constructor
    · rcases sig with _ | ⟨t0, ts⟩
      · exact absurd rfl hne
      have h0 := hall t0 (by simp)
      rw [hasComp_iff] at h0
      obtain ⟨s, hfs, hhas⟩ := h0
      have hmem : (t0, s) ∈ st.stores := findStore_mem hfs
      have hswf : s.WF := hwf _ hmem
      rw [List.mem_dedup, List.mem_flatten]
      refine ⟨s.slotEntity, ?_, ?_⟩
      · exact List.mem_map_of_mem _ hmem
      · exact (Store.mem_slotEntity_iff_has hswf ent.index).mpr hhas
    · rw [List.all_eq_true]
      exact fun t ht => hall t ht

/-- Claim C1: for every well-formed World state and every nonempty
signature of registered component-type keys, query(S) succeeds and
returns exactly the set of entities whose held-component-type set is a
superset of S, and coincides with the naive full-scan reference
implementation. -/
theorem query_matches_reference (st : SimState) (sig : List Nat)
    (hwf : st.StoresWF) (hne : sig ≠ [])
    (hreg : ∀ t ∈ sig, (st.findStore t).isSome = true) :
    ∃ l, st.query sig = Except.ok l ∧
      (∀ ent, ent ∈ l ↔ ent ∈ st.referenceQuery sig) ∧
      (∀ ent, ent ∈ l ↔
        ((∀ t ∈ sig, st.hasComp t ent.index = true) ∧ ent = st.handleOf ent.index)) := by
  obtain ⟨ss, hss⟩ := sigStores_total hreg
  rcases sig with _ | ⟨t0, ts⟩
  · exact absurd rfl hne
  have hf2 := sigStores_forall2 hss
  cases ss with
  | nil => cases hf2
  | cons s0 ss' =>
    rcases hpm : pickMin s0 ss' with ⟨drive, rest⟩
    have hqeq : st.query (t0 :: ts) = Except.ok ((drive.slotEntity.filter
        (fun i => rest.all (fun s => s.has i))).map st.handleOf) := by
      simp only [SimState.query, hss, hpm]
    refine ⟨(drive.slotEntity.filter
        (fun i => rest.all (fun s => s.has i))).map st.handleOf, hqeq, ?_, ?_⟩
    · intro ent
      rw [query_ok_char hwf hne hqeq ent, referenceQuery_char hwf hne ent]
    · exact query_ok_char hwf hne hqeq

/-- Witness for C1 at concrete inputs: a world with a Position store
(type 0, held by entities 1 and 2) and a Velocity store (type 1, held
by entities 2 and 3): querying for both component types succeeds and
agrees with the naive reference scan. -/
theorem query_matches_reference_witness :
    ∃ l,
      (SimState.mk Registry.empty
        [(0, Store.empty.applyOps [StoreOp.addOp 1 10, StoreOp.addOp 2 20]),
         (1, Store.empty.applyOps [StoreOp.addOp 2 5, StoreOp.addOp 3 7])] []).query [0, 1] =
        Except.ok l ∧
      (∀ ent, ent ∈ l ↔ ent ∈
        (SimState.mk Registry.empty
          [(0, Store.empty.applyOps [StoreOp.addOp 1 10, StoreOp.addOp 2 20]),
           (1, Store.empty.applyOps [StoreOp.addOp 2 5, StoreOp.addOp 3 7])] []).referenceQuery
          [0, 1]) := by
  have h := query_matches_reference
    (SimState.mk Registry.empty
      [(0, Store.empty.applyOps [StoreOp.addOp 1 10, StoreOp.addOp 2 20]),
       (1, Store.empty.applyOps [StoreOp.addOp 2 5, StoreOp.addOp 3 7])] [])
    [0, 1]
    (by
      intro p hp
      rw [List.mem_cons, List.mem_singleton] at hp
      rcases hp with rfl | rfl
      · exact Store.wf_applyOps Store.wf_empty _
      · exact Store.wf_applyOps Store.wf_empty _)
    (by simp)
    (by
      intro t ht
      rw [List.mem_cons, List.mem_singleton] at ht
      rcases ht with rfl | rfl <;> rfl)
  obtain ⟨l, h1, h2, _⟩ := h
  exact ⟨l, h1, h2⟩

theorem sigStores_ignores_pending (st : SimState) (q : List Pending) :
    ∀ sig : List Nat,
      (SimState.mk st.registry st.stores q).sigStores sig = st.sigStores sig := by
  intro sig
  induction sig with
  | nil => rfl
  | cons t ts ih =>
    rw [SimState.sigStores, SimState.sigStores, ih]
    rfl

theorem query_ignores_pending (st : SimState) (q : List Pending) (sig : List Nat) :
    (SimState.mk st.registry st.stores q).query sig = st.query sig := by
  cases sig with
  | nil => rfl
  | cons t ts =>
    simp only [SimState.query, sigStores_ignores_pending]
    rfl

theorem pending_destroyNow (st : SimState) (e : Entity) :
    ((st.destroyEntityNow e).toOption.getD st).pending = st.pending := by
  rw [SimState.destroyEntityNow]
  cases h : st.registry.destroy e with
  | ok r' => simp [Except.toOption]
  | error err => simp [Except.toOption]

theorem pending_addComponent (st : SimState) (t : Nat) (e : Entity) (c : Nat) :
    ((st.addComponent t e c).toOption.getD st).pending = st.pending := by
  rw [SimState.addComponent]
  by_cases h : st.registry.isAlive e
  · simp only [h, if_true]
    cases hf : st.findStore t with
    | none => simp [Except.toOption]
    | some s =>
      cases ha : s.add e.index c with
      | ok s' => simp [ha, Except.toOption, SimState.updateStore]
      | error err => simp [ha, Except.toOption]
  · simp [h, Except.toOption]

theorem pending_removeComponent (st : SimState) (t : Nat) (e : Entity) :
    ((st.removeComponent t e).toOption.getD st).pending = st.pending := by
  rw [SimState.removeComponent]
  by_cases h : st.registry.isAlive e
  · simp only [h, if_true]
    cases hf : st.findStore t with
    | none => simp [Except.toOption]
    | some s =>
      cases ha : s.remove e.index with
      | ok s' => simp [ha, Except.toOption, SimState.updateStore]
      | error err => simp [ha, Except.toOption]
  · simp [h, Except.toOption]

theorem pending_applyPendingOp (st : SimState) (p : Pending) :
    (st.applyPendingOp p).pending = st.pending := by
  cases p with
  | destroyP e => exact pending_destroyNow st e
  | removeP t e => exact pending_removeComponent st t e
  | addP t e c => exact pending_addComponent st t e c

theorem applyPending_clears_queue (st : SimState) : st.applyPending.pending = [] := by
  rw [SimState.applyPending]
  have hgen : ∀ (ps : List Pending) (s : SimState), s.pending = [] →
      (ps.foldl SimState.applyPendingOp s).pending = [] := by
    intro ps
    induction ps with
    | nil => intro s hs; exact hs
    | cons p rest ih =>
      intro s hs
      exact ih (s.applyPendingOp p) (by rw [pending_applyPendingOp, hs])
  exact hgen st.pending _ rfl

theorem destroyNow_getD_stores (st : SimState) (e : Entity)
    (halive : st.registry.isAlive e = true) :
    ((st.destroyEntityNow e).toOption.getD st).stores =
      st.stores.map (fun p => (p.1, ((p.2.remove e.index).toOption.getD p.2))) := by
  rw [SimState.destroyEntityNow, Registry.destroy, halive]
  simp [Except.toOption]

/-- Claim C4: structural operations requested during a tick
(destroyEntity, removeComponent, addComponent) are deferred into the
pending queue and do not alter any same-tick query result; the queue
is applied atomically at the tick boundary (tick ends with an empty
queue), and a deferred destroy is visible starting the next tick: after
the boundary flush no query returns an entity at the destroyed
index. -/
theorem deferred_mutations_visible_next_tick
    (st : SimState) (e : Entity) (t c : Nat) (sig : List Nat)
    (sch : Scheduler) (dt : ℚ) (w : World) :
    ((st.requestDestroy e).query sig = st.query sig) ∧
    ((st.requestRemove t e).query sig = st.query sig) ∧
    ((st.requestAdd t e c).query sig = st.query sig) ∧
    ((tick sch dt w).1.sim.pending = []) ∧
    (st.StoresWF → st.registry.isAlive e = true → st.pending = [] →
      ∀ l ent, (st.requestDestroy e).applyPending.query sig = Except.ok l →
        ent ∈ l → ent.index ≠ e.index) := by
  refine ⟨?_, ?_, ?_, ?_, ?_⟩
  · exact query_ignores_pending st _ sig
  · exact query_ignores_pending st _ sig
  · exact query_ignores_pending st _ sig
  · simp only [tick]
    exact applyPending_clears_queue _
  · intro hwf halive hpend l ent hq hmem
    have h1 : (st.requestDestroy e).applyPending =
        ((SimState.mk st.registry st.stores []).destroyEntityNow e).toOption.getD
          (SimState.mk st.registry st.stores []) := by
      rw [SimState.requestDestroy, hpend]
      rfl
    rw [h1] at hq
    have halive2 : (SimState.mk st.registry st.stores []).registry.isAlive e = true := halive
    have hst := destroyNow_getD_stores (SimState.mk st.registry st.stores []) e halive2
    have hwfD : (((SimState.mk st.registry st.stores []).destroyEntityNow e).toOption.getD
        (SimState.mk st.registry st.stores [])).StoresWF := by
      intro p hp
      rw [hst] at hp
      obtain ⟨q2, hq2, rfl⟩ := List.mem_map.mp hp
      exact Store.wf_applyOp (hwf q2 hq2) (StoreOp.removeOp e.index)
    have hhasD : ∀ p ∈ (((SimState.mk st.registry st.stores []).destroyEntityNow
        e).toOption.getD (SimState.mk st.registry st.stores [])).stores,
        p.2.has e.index = false := by
      intro p hp
      rw [hst] at hp
      obtain ⟨q2, hq2, rfl⟩ := List.mem_map.mp hp
      exact Store.remove_then_not_has q2.2 e.index
    rcases sig with _ | ⟨t0, ts⟩
    · rw [SimState.query] at hq
      cases hq
      simp at hmem
    · have hchar := query_ok_char hwfD (by simp) hq ent
      obtain ⟨hall, _⟩ := hchar.mp hmem
      have h0 := hall t0 (by simp)
      rw [hasComp_iff] at h0
      obtain ⟨s, hfs, hhas⟩ := h0
      have hmem2 := findStore_mem hfs
      have hfalse := hhasD _ hmem2
      intro heq
      rw [heq] at hhas
      rw [hhas] at hfalse
      cases hfalse

/-- Witness for C4 at concrete inputs: in a world with four live
entities, Position (type 0) on entities 1 and 2 and Velocity (type 1)
on entities 2 and 3, deferring destroy of entity 1 and flushing the
queue leaves query {0, 1} returning exactly the entity at index 2,
which is not the destroyed index. -/
theorem deferred_mutations_visible_next_tick_witness :
    (((SimState.mk (Registry.mk [0, 0, 0, 0] [])
        [(0, Store.empty.applyOps [StoreOp.addOp 1 10, StoreOp.addOp 2 20]),
         (1, Store.empty.applyOps [StoreOp.addOp 2 5, StoreOp.addOp 3 7])]
        []).requestDestroy ⟨1, 0⟩).applyPending.query [0, 1] =
      Except.ok [Entity.mk 2 0]) ∧
    (Entity.mk 2 0).index ≠ (Entity.mk 1 0).index := by
  constructor
  · rfl
  · exact (deferred_mutations_visible_next_tick
      (SimState.mk (Registry.mk [0, 0, 0, 0] [])
        [(0, Store.empty.applyOps [StoreOp.addOp 1 10, StoreOp.addOp 2 20]),
         (1, Store.empty.applyOps [StoreOp.addOp 2 5, StoreOp.addOp 3 7])]
        []) ⟨1, 0⟩ 0 0 [0, 1] Scheduler.emptySched 0
        ⟨SimState.empty, []⟩).2.2.2.2
      (by
        intro p hp
        rw [List.mem_cons, List.mem_singleton] at hp
        rcases hp with rfl | rfl
        · exact Store.wf_applyOps Store.wf_empty _
        · exact Store.wf_applyOps Store.wf_empty _)
      rfl rfl [Entity.mk 2 0] (Entity.mk 2 0) rfl (by simp)

end Ares
